import Mathlib

/-!
Verification development for the avatar animation core in
`src/components/Sing/CharacterModel.vue`: the phoneme-to-expression timeline
engine (phoneme segmenter, expression mapper, phrase timeline cache, playhead
lookup) and the pose-blending state machine (idle sway, ending decay, reaction
gestures).

Numeric modelling: the TypeScript code computes with IEEE doubles; all the
quantities that matter to the claims (tick positions, frame counts, blend
weights) are produced by rational arithmetic on finite inputs, so they are
embedded as `ℚ` (frame counts as `ℕ`).  Where a claim concerns the NaN
behaviour of the code, JS numbers are embedded as `JsQ` (a rational or NaN)
with JS comparison/`Math.min` semantics.  The sway/decay rotation math uses
transcendental functions and is embedded over `ℝ`.

The tick converter `secondToTick` and the pitch converter
`frequencyToNoteNumber` live in `src/sing/domain` which is not part of this
repository snapshot; per the spec they are pure external collaborators
(`secondToTick` monotonic).  They are abstracted as function parameters
(`sigma`, `noteOf`) of the timeline builder.
-/

namespace CharacterModel

/-- A JavaScript number as used on the per-frame paths of the claims: either
NaN or a finite (rational) value.  Comparisons involving NaN are `false`,
arithmetic and `Math.min` propagate NaN, matching JS semantics. -/
inductive JsQ where
  | nan : JsQ
  | fin : ℚ → JsQ
deriving DecidableEq

/-- JS subtraction: NaN propagates. -/
def JsQ.sub : JsQ → JsQ → JsQ
  | JsQ.fin a, JsQ.fin b => JsQ.fin (a - b)
  | _, _ => JsQ.nan

/-- JS division: NaN propagates.  (Division by zero would give ±∞ in JS; the
code under verification only divides by the nonzero constants `24` and
`lastTpqn`, so that case is mapped to NaN merely to keep the function total.) -/
def JsQ.div : JsQ → JsQ → JsQ
  | JsQ.fin a, JsQ.fin b => if b = 0 then JsQ.nan else JsQ.fin (a / b)
  | _, _ => JsQ.nan

/-- `Math.min`: returns NaN if either argument is NaN. -/
def JsQ.min : JsQ → JsQ → JsQ
  | JsQ.fin a, JsQ.fin b => JsQ.fin (Min.min a b)
  | _, _ => JsQ.nan

/-- JS `<`: any comparison with NaN is false. -/
def JsQ.lt : JsQ → JsQ → Bool
  | JsQ.fin a, JsQ.fin b => decide (a < b)
  | _, _ => false

/-- `Number.isFinite`. -/
def JsQ.isFinite : JsQ → Bool
  | JsQ.fin _ => true
  | JsQ.nan => false

/-- `FramePhoneme` from the openapi layer: a phoneme symbol with a duration in
frames. -/
structure FramePhoneme where
  phoneme : String
  frameLength : ℕ
deriving DecidableEq

/-- `type Section` of the source: one phoneme occurrence with frame bounds
(`endFrame` exclusive), tick bounds, resolved expression and weight. -/
structure Section where
  startFrame : ℕ
  frameLength : ℕ
  endFrame : ℕ
  startTick : ℚ
  endTick : ℚ
  expression : String
  weight : ℚ
  phonemeString : String
  noteNumber : ℚ
deriving DecidableEq

/-- `type OneFrame` of the source: a cached per-phrase timeline. -/
structure OneFrame where
  startFrame : ℕ
  frameLength : ℕ
  endFrame : ℕ
  startTick : ℚ
  endTick : ℚ
  sections : List Section
deriving DecidableEq

/-- `const EXP_CLOSE = "__silent"`: the mouth-closed (silence) expression. -/
def EXP_CLOSE : String := "__silent"

/-- `vowelMap`: phonemes recognized as vowels, mapped to their mouth shape.
The source is a `Map`; lookup of any other key (or of `undefined`) yields
nothing. -/
def vowelMap (p : String) : Option String :=
  if p = "a" then some "aa"
  else if p = "i" then some "ih"
  else if p = "u" then some "ou"
  else if p = "e" then some "ee"
  else if p = "o" then some "oh"
  else none

/-- `const consonantWeight = 0.7` (inside the per-section loop of `render`). -/
def consonantWeight : ℚ := 0.7

/-- Recursive form of the `searchSections` loop: `currentFrame` is the running
frame offset. -/
def searchSectionsAux (currentFrame : ℕ) : List FramePhoneme → List Section
  | [] => []
  | p :: rest =>
    { startFrame := currentFrame
      frameLength := p.frameLength
      endFrame := currentFrame + p.frameLength
      startTick := 0
      endTick := 0
      expression := ""
      weight := 1
      phonemeString := p.phoneme
      noteNumber := 60 } :: searchSectionsAux (currentFrame + p.frameLength) rest

/-- `searchSections`: the phoneme segmenter.  One `Section` per phoneme, frame
bounds a running sum starting at 0; ticks/expressions left at their initial
values. -/
def searchSections (phonemes : List FramePhoneme) : List Section :=
  searchSectionsAux 0 phonemes

/-- `Map.set` on an association list: update in place if the key is present,
otherwise append (JS `Map` insertion order). -/
def setW (m : List (String × ℚ)) (k : String) (v : ℚ) : List (String × ℚ) :=
  if m.any (fun kv => kv.1 = k) then
    m.map (fun kv => if kv.1 = k then (kv.1, v) else kv)
  else m ++ [(k, v)]

/-- `makeWeight`: returns the five mouth-vowel weights, all 0 except the
`target` entry (set to `weight`) when `target` is one of the five keys
(`if (weights.has(target)) weights.set(target, weight)`). -/
def makeWeight (target : String) (weight : ℚ) : List (String × ℚ) :=
  let weights : List (String × ℚ) := [("aa", 0), ("ih", 0), ("ou", 0), ("ee", 0), ("oh", 0)]
  if weights.any (fun kv => kv.1 = target) then setW weights target weight
  else weights

/-- The local `result` of `searchSection`: the synthetic fallback returned when
no cached section matches the queried tick. -/
def fallbackResult : Section :=
  { startFrame := 0
    frameLength := 0
    endFrame := 0
    startTick := 0
    endTick := 0
    expression := EXP_CLOSE
    weight := 1
    phonemeString := "pau"
    noteNumber := 60 }

/-- Inner loop of `searchSection` over one timeline's sections: skip sections
not containing `headTick` (inclusive bounds, JS comparisons) and sections whose
phoneme is `"pau"`; return the first remaining one. -/
def sectionLoop (headTick : JsQ) : List Section → Option Section
  | [] => none
  | s :: rest =>
    if JsQ.lt headTick (JsQ.fin s.startTick) || JsQ.lt (JsQ.fin s.endTick) headTick then
      sectionLoop headTick rest
    else if s.phonemeString = "pau" then
      sectionLoop headTick rest
    else some s

/-- Outer loop of `searchSection` over `frameMap.values()` (insertion order):
skip timelines whose tick range does not contain `headTick`; inside a matching
timeline, defer to `sectionLoop`, falling through to later timelines when it
finds nothing. -/
def frameLoop (headTick : JsQ) : List (String × OneFrame) → Option Section
  | [] => none
  | kv :: rest =>
    if JsQ.lt headTick (JsQ.fin kv.2.startTick) || JsQ.lt (JsQ.fin kv.2.endTick) headTick then
      frameLoop headTick rest
    else
      match sectionLoop headTick kv.2.sections with
      | some s => some s
      | none => frameLoop headTick rest

/-- `searchSection`: the playhead lookup over the cached `frameMap`. -/
def searchSection (headTick : JsQ) (frameMap : List (String × OneFrame)) : Section :=
  (frameLoop headTick frameMap).getD fallbackResult

/-- The `switch (section.phonemeString)` of `render` resolving one section's
expression and weight, with `next` the following section's phoneme symbol (if
any): the expression mapper. -/
def resolveExpression (p : String) (next : Option String) : String × ℚ :=
  if p = "m" ∨ p = "b" ∨ p = "p" ∨ p = "my" ∨ p = "by" ∨ p = "py" ∨
      p = "N" ∨ p = "v" ∨ p = "pau" then
    (EXP_CLOSE, 1)
  else if p = "w" then ("ou", consonantWeight)
  else if p = "a" then ("aa", 1)
  else if p = "i" then ("ih", 1)
  else if p = "u" then ("ou", 1)
  else if p = "e" then ("ee", 1)
  else if p = "o" then ("oh", 1)
  else
    match next.bind vowelMap with
    | some v => (v, consonantWeight)
    | none => ("ou", consonantWeight)

/-- Per-section finalization inside the build loop of `render` (lines 287-357):
fills in tick bounds via the tick converter `sigma` (abstracting
`secondToTick` with the phrase's tempos/tpqn applied), the note number via
`noteOf` (abstracting `frequencyToNoteNumber(f0[startFrame])`), and the
expression/weight via the `switch` (`resolveExpression`), looking one section
ahead for the coarticulation case. -/
def finalizeSections (sigma : ℚ → ℚ) (noteOf : ℕ → ℚ) (startTime frameRate : ℚ) :
    List Section → List Section
  | [] => []
  | s :: rest =>
    let e := resolveExpression s.phonemeString (rest.head?.map (fun n => n.phonemeString))
    { s with
      startTick := sigma (startTime + (s.startFrame : ℚ) / frameRate)
      endTick := sigma (startTime + (s.endFrame : ℚ) / frameRate)
      noteNumber := noteOf s.startFrame
      expression := e.1
      weight := e.2 } :: finalizeSections sigma noteOf startTime frameRate rest

/-- The `lastEndTick` update performed while building a timeline: for each
section whose phoneme is not `"pau"`, `lastEndTick = Math.max(lastEndTick,
section.endTick)` (line 304-306). -/
def insertLastEndTick (lastEndTick : ℚ) : List Section → ℚ
  | [] => lastEndTick
  | s :: rest =>
    insertLastEndTick
      (if s.phonemeString ≠ "pau" then max lastEndTick s.endTick else lastEndTick) rest

/-- Building one `OneFrame` for a new phrase (lines 266-284 plus the section
loop).  The source indexes `sections[0]` and `sections[sections.length - 1]`,
which throws on an empty phoneme list; that fallible access is modelled by
returning `none` there. -/
def buildOneFrame (sigma : ℚ → ℚ) (noteOf : ℕ → ℚ) (startTime frameRate : ℚ)
    (phonemes : List FramePhoneme) : Option OneFrame :=
  match (searchSections phonemes).head?, (searchSections phonemes).getLast? with
  | some s0, some lastRaw =>
    some
      { startFrame := s0.startFrame
        endFrame := lastRaw.endFrame
        frameLength := 0
        startTick := sigma startTime
        endTick := sigma (startTime + ((lastRaw.endFrame : ℚ) - (s0.startFrame : ℚ)) / frameRate)
        sections := finalizeSections sigma noteOf startTime frameRate (searchSections phonemes) }
  | _, _ => none

/-- The phrase-processing step of `render` for a single phrase (lines 244-362),
restricted to a ready phrase (the `!phrase.singer || !phrase.query ||
!phrase.startTime` skip happens upstream): a no-op when the phrase key is
already cached, otherwise builds the timeline, extends `lastEndTick` over its
non-`"pau"` sections, and appends the new entry to the cache (JS `Map.set` on a
fresh key preserves insertion order). -/
def upsert (sigma : ℚ → ℚ) (noteOf : ℕ → ℚ) (phraseKey : String)
    (startTime frameRate : ℚ) (phonemes : List FramePhoneme)
    (frameMap : List (String × OneFrame)) (lastEndTick : ℚ) :
    List (String × OneFrame) × ℚ :=
  match frameMap.lookup phraseKey with
  | some _ => (frameMap, lastEndTick)
  | none =>
    match buildOneFrame sigma noteOf startTime frameRate phonemes with
    | none => (frameMap, lastEndTick)
    | some oneframe =>
      (frameMap ++ [(phraseKey, oneframe)], insertLastEndTick lastEndTick oneframe.sections)

/-- The recomputation loop after a deletion (lines 237-240): starting from 0,
fold `Math.max` of every surviving timeline's `endTick`. -/
def maxEndTickFrom (acc : ℚ) : List (String × OneFrame) → ℚ
  | [] => acc
  | kv :: rest => maxEndTickFrom (max acc kv.2.endTick) rest

/-- `maxEndTick`: maximum `endTick` over all cached timelines, 0 when empty. -/
def maxEndTick (frameMap : List (String × OneFrame)) : ℚ :=
  maxEndTickFrom 0 frameMap

/-- The pruning step of `render` (lines 229-241): delete every cached phrase
key absent from the current phrase set; if anything was deleted, recompute
`lastEndTick` as `maxEndTick` of the survivors.  Returns the new cache and the
new `lastEndTick`. -/
def renderPrune (phraseKeys : List String) (frameMap : List (String × OneFrame))
    (lastEndTick : ℚ) : List (String × OneFrame) × ℚ :=
  if frameMap.any (fun kv => !(phraseKeys.contains kv.1)) then
    (frameMap.filter (fun kv => phraseKeys.contains kv.1),
      maxEndTick (frameMap.filter (fun kv => phraseKeys.contains kv.1)))
  else (frameMap.filter (fun kv => phraseKeys.contains kv.1), lastEndTick)

/-- `config.motion.long.enable`. -/
def motionLongEnable : Bool := true

/-- `config.motion.long.ratio`. -/
def motionLongRate : ℚ := 1.5

/-- `config.motion.long.expression` (`"Hauu"`). -/
def motionLongExpression : String := "Hauu"

/-- `config.motion.high.enable`. -/
def motionHighEnable : Bool := false

/-- `config.motion.high.tone`. -/
def motionHighTone : ℚ := 70

/-- `config.motion.high.ratio`. -/
def motionHighRate : ℚ := 0.9

/-- `config.motion.last.expression` (`"Wink_L"`). -/
def motionLastExpression : String := "Wink_L"

/-- `Map.set` on the expression-weight map carrying JS-number values. -/
def setWJs (m : List (String × JsQ)) (k : String) (v : JsQ) : List (String × JsQ) :=
  if m.any (fun kv => kv.1 = k) then
    m.map (fun kv => if kv.1 = k then (kv.1, v) else kv)
  else m ++ [(k, v)]

/-- The expression-weight computation of `render` (lines 434-480): active
section lookup, mouth weights, long-note/high-note gesture weight, finale
(`endAppend`) weight, and the neutral fallback.  `playheadTicks` enters as a JS
number (possibly NaN); `isEnd` is the ending-state flag after the motion block;
`lastTpqn`/`lastEndTick` are the carried scalars (always finite).  The mouth
weights produced by `makeWeight` are finite, hence lifted into `JsQ`. -/
def computeWeights (frameMap : List (String × OneFrame)) (playheadTicks : JsQ)
    (lastTpqn lastEndTick : ℚ) (isEnd : Bool) : List (String × JsQ) :=
  let sec := searchSection playheadTicks frameMap
  let lip := sec.expression
  let weights := (makeWeight (if isEnd then EXP_CLOSE else lip) sec.weight).map
    (fun kv => (kv.1, JsQ.fin kv.2))
  let len := sec.endTick - sec.startTick
  let isHauu := false
  let isHauu :=
    if motionHighEnable then
      if lastTpqn * motionHighRate ≤ len ∧ motionHighTone ≤ sec.noteNumber ∧ lip ≠ EXP_CLOSE
      then true else isHauu
    else isHauu
  let isHauu :=
    if motionLongEnable then
      if lastTpqn * motionLongRate < len ∧ lip ≠ EXP_CLOSE then true else isHauu
    else isHauu
  let hauuWeight : JsQ := JsQ.fin (if isHauu then 1 else 0)
  let weights := setWJs weights motionLongExpression hauuWeight
  let pastTick := playheadTicks.sub (JsQ.fin lastEndTick)
  let endAppend := JsQ.min (JsQ.fin 1) ((pastTick.sub (JsQ.fin (lastTpqn * 3))).div (JsQ.fin 24))
  let weights := setWJs weights motionLastExpression endAppend
  let isNeutral := weights.all (fun kv => !(JsQ.lt (JsQ.fin 0) kv.2))
  if isNeutral then setWJs weights "neutral" (JsQ.fin 1) else weights

/-- `degToRad` of the source, over the reals (the sway/decay math is
transcendental). -/
noncomputable def degToRad (deg : ℝ) : ℝ := deg * Real.pi / 180

/-- The local `cosEase` of the ending-decay branch:
`(1 - Math.cos(tt * Math.PI)) * 0.5`. -/
noncomputable def cosEase (tt : ℝ) : ℝ := (1 - Real.cos (tt * Real.pi)) * 0.5

/-- `type TwoPoint` of the source (fields in declaration order x0, y0, x1, y1). -/
structure TwoPoint where
  x0 : ℝ
  y0 : ℝ
  x1 : ℝ
  y1 : ℝ

/-- `twoPointEase`: cosine ease between two points. -/
noncomputable def twoPointEase (p : TwoPoint) (t : ℝ) : ℝ :=
  p.y0 + (1 - Real.cos (Real.pi * (t - p.x0) / (p.x1 - p.x0))) * 0.5 * (p.y1 - p.y0)

/-- The `ease` function over its four-segment table: constant -1 on
[0, 0.25), cosine rise on [0.25, 0.5), constant 1 on [0.5, 0.75), cosine fall
on [0.75, 1), and 1 outside the table's range. -/
noncomputable def ease (t : ℝ) : ℝ :=
  if 0 ≤ t ∧ t < 0.25 then -1
  else if 0.25 ≤ t ∧ t < 0.5 then twoPointEase ⟨0.25, -1, 0.5, 1⟩ t
  else if 0.5 ≤ t ∧ t < 0.75 then 1
  else if 0.75 ≤ t ∧ t < 1 then twoPointEase ⟨0.75, 1, 1, -1⟩ t
  else 1

/-- JS truncation toward zero (for the `%` operator). -/
noncomputable def jsTrunc (x : ℝ) : ℝ := if 0 ≤ x then (⌊x⌋ : ℝ) else (⌈x⌉ : ℝ)

/-- JS `%` (remainder with the dividend's sign) on finite values. -/
noncomputable def jsRem (a b : ℝ) : ℝ := a - b * jsTrunc (a / b)

/-- The ending-gesture sub-state carried across frames: the `isEnd` flag and
the captured decay-start rotation `lastRot` (its middle component is always 0
in the source capture `[xrot, 0, zrot]`). -/
structure MotionState where
  isEnd : Bool
  lastRot : Option (ℝ × ℝ × ℝ)

/-- The decay factor applied to the captured rotation while the playhead is
past the last known end tick: `1 - cosEase(min(1, pastTick / lastTpqn))`. -/
noncomputable def decayFactor (lastTpqn pastTick : ℝ) : ℝ :=
  1 - cosEase (min 1 (pastTick / lastTpqn))

/-- The body-motion block of `render` (lines 364-431) on finite inputs: idle
sway phase `mod`, ending decay with state transition to ENDED at `t = 1`, and
the starting anticipation ease; returns the final `(xrot, zrot)` pair applied
to the head/chest bones (after the terminal `if (isEnd)` forcing to rest) and
the new ending sub-state.  On a finite `playheadTicks` the `Number.isFinite`
guard is always taken; the NaN path is covered by the `JsQ` model. -/
noncomputable def motionStep (playheadTicks lastTpqn lastEndTick : ℝ)
    (st : MotionState) : (ℝ × ℝ) × MotionState :=
  let mod := jsRem playheadTicks (lastTpqn * 4) / (lastTpqn * 4)
  let zrot0 := degToRad (1.8 * ease mod)
  let xrot0 := degToRad (3 * (1 - Real.sin (degToRad (180 * jsRem (mod * 4) 1))))
  let pastTick := playheadTicks - lastEndTick
  let step : (ℝ × ℝ) × MotionState :=
    if 0 < pastTick then
      if st.isEnd then ((xrot0, zrot0), st)
      else
        let lastRot := st.lastRot.getD (xrot0, 0, zrot0)
        let t := min 1 (pastTick / lastTpqn)
        let zrot := lastRot.2.2 * (1 - cosEase t)
        let xrot := lastRot.1 * (1 - cosEase t)
        if t = 1 then ((xrot, zrot), ⟨true, none⟩)
        else ((xrot, zrot), ⟨false, some lastRot⟩)
    else
      let t := playheadTicks / lastTpqn
      if t < 1 then
        ((xrot0, degToRad (1.8 * twoPointEase ⟨0, 0, 1, -1⟩ t)), ⟨false, none⟩)
      else ((xrot0, zrot0), ⟨false, none⟩)
  if step.2.isEnd then ((0, 0), step.2) else step

/-! ### Concrete fixtures used by witness theorems -/

/-- Fixture: a `"pau"` section covering ticks [0, 5]. -/
def pauSecA : Section :=
  { startFrame := 0, frameLength := 5, endFrame := 5, startTick := 0, endTick := 5,
    expression := "__silent", weight := 1, phonemeString := "pau", noteNumber := 60 }

/-- Fixture: an `"a"` section whose tick range [0, 5] coincides with
`pauSecA`'s. -/
def aSecA : Section :=
  { startFrame := 5, frameLength := 5, endFrame := 10, startTick := 0, endTick := 5,
    expression := "aa", weight := 1, phonemeString := "a", noteNumber := 60 }

/-- Fixture: a timeline over ticks [0, 10] holding `pauSecA` and `aSecA`. -/
def frameA : OneFrame :=
  { startFrame := 0, frameLength := 10, endFrame := 10, startTick := 0, endTick := 10,
    sections := [pauSecA, aSecA] }

/-! ### Helper lemmas: small-step evaluation facts shared by several proofs -/

@[simp] lemma searchSection_nil (t : JsQ) : searchSection t [] = fallbackResult := rfl

@[simp] lemma JsQ.sub_fin (a b : ℚ) : (JsQ.fin a).sub (JsQ.fin b) = JsQ.fin (a - b) := rfl

@[simp] lemma JsQ.nan_sub (b : JsQ) : JsQ.nan.sub b = JsQ.nan := rfl

@[simp] lemma JsQ.div_fin (a b : ℚ) :
    (JsQ.fin a).div (JsQ.fin b) = if b = 0 then JsQ.nan else JsQ.fin (a / b) := rfl

@[simp] lemma JsQ.nan_div (b : JsQ) : JsQ.nan.div b = JsQ.nan := rfl

@[simp] lemma JsQ.min_fin (a b : ℚ) : (JsQ.fin a).min (JsQ.fin b) = JsQ.fin (Min.min a b) := rfl

@[simp] lemma JsQ.min_nan (a : JsQ) : a.min JsQ.nan = JsQ.nan := by cases a <;> rfl

@[simp] lemma JsQ.lt_fin (a b : ℚ) : (JsQ.fin a).lt (JsQ.fin b) = decide (a < b) := rfl

@[simp] lemma JsQ.lt_nan (a : JsQ) : a.lt JsQ.nan = false := by cases a <;> rfl

@[simp] lemma JsQ.nan_lt (b : JsQ) : JsQ.nan.lt b = false := rfl

@[simp] lemma fallbackResult_expression : fallbackResult.expression = "__silent" := rfl

@[simp] lemma fallbackResult_weight : fallbackResult.weight = 1 := rfl

@[simp] lemma fallbackResult_startTick : fallbackResult.startTick = 0 := rfl

@[simp] lemma fallbackResult_endTick : fallbackResult.endTick = 0 := rfl

@[simp] lemma fallbackResult_noteNumber : fallbackResult.noteNumber = 60 := rfl

@[simp] lemma fallbackResult_phonemeString : fallbackResult.phonemeString = "pau" := rfl

@[simp] lemma motionLongEnable_eq : motionLongEnable = true := rfl

@[simp] lemma motionHighEnable_eq : motionHighEnable = false := rfl

@[simp] lemma motionLongExpression_eq : motionLongExpression = "Hauu" := rfl

@[simp] lemma motionLastExpression_eq : motionLastExpression = "Wink_L" := rfl

@[simp] lemma EXP_CLOSE_eq : EXP_CLOSE = "__silent" := rfl

/-! ### Phoneme segmenter: facts about `searchSections` (claim C6) -/

lemma searchSectionsAux_length (c : ℕ) (ps : List FramePhoneme) :
    (searchSectionsAux c ps).length = ps.length := by
  induction ps generalizing c with
  | nil => rfl
  | cons p rest ih => simp [searchSectionsAux, ih]

lemma searchSectionsAux_getD_zero_startFrame (c : ℕ) (ps : List FramePhoneme)
    (h : 0 < ps.length) :
    ((searchSectionsAux c ps).getD 0 fallbackResult).startFrame = c := by
  cases ps with
  | nil => simp at h
  | cons p rest => simp [searchSectionsAux]

lemma searchSectionsAux_getD_frameLength (c : ℕ) (ps : List FramePhoneme) :
    ∀ i, i < ps.length →
      ((searchSectionsAux c ps).getD i fallbackResult).frameLength =
        (ps.getD i ⟨"", 0⟩).frameLength := by
  induction ps generalizing c with
  | nil => intro i hi; simp at hi
  | cons p rest ih =>
    intro i hi
    cases i with
    | zero => simp [searchSectionsAux]
    | succ j =>
      simp only [searchSectionsAux, List.getD_cons_succ]
      exact ih _ j (by simpa using hi)

lemma searchSectionsAux_getD_endFrame (c : ℕ) (ps : List FramePhoneme) :
    ∀ i, i < ps.length →
      ((searchSectionsAux c ps).getD i fallbackResult).endFrame =
        ((searchSectionsAux c ps).getD i fallbackResult).startFrame +
          ((searchSectionsAux c ps).getD i fallbackResult).frameLength := by
  induction ps generalizing c with
  | nil => intro i hi; simp at hi
  | cons p rest ih =>
    intro i hi
    cases i with
    | zero => simp [searchSectionsAux]
    | succ j =>
      simp only [searchSectionsAux, List.getD_cons_succ]
      exact ih _ j (by simpa using hi)

lemma searchSectionsAux_chain (c : ℕ) (ps : List FramePhoneme) :
    ∀ i, i + 1 < ps.length →
      ((searchSectionsAux c ps).getD i fallbackResult).endFrame =
        ((searchSectionsAux c ps).getD (i + 1) fallbackResult).startFrame := by
  induction ps generalizing c with
  | nil => intro i hi; simp at hi
  | cons p rest ih =>
    intro i hi
    cases i with
    | zero =>
      have hr : 0 < rest.length := by simpa using hi
      simp only [searchSectionsAux, List.getD_cons_zero, List.getD_cons_succ]
      exact (searchSectionsAux_getD_zero_startFrame _ _ hr).symm
    | succ j =>
      simp only [searchSectionsAux, List.getD_cons_succ]
      exact ih _ j (by simpa using hi)

/-- C6: the Phoneme Segmenter produces exactly one segment per phoneme;
`segments[0].startFrame = 0`; consecutive segments are contiguous
(`endFrame = next.startFrame`); each segment's `frameLength` is its source
phoneme's `frameLength` (zero-length phonemes passed through); and
`endFrame = startFrame + frameLength` throughout. -/
theorem C6_segmenter (phonemes : List FramePhoneme) :
    (searchSections phonemes).length = phonemes.length
    ∧ (0 < phonemes.length →
        ((searchSections phonemes).getD 0 fallbackResult).startFrame = 0)
    ∧ (∀ i, i + 1 < phonemes.length →
        ((searchSections phonemes).getD i fallbackResult).endFrame =
          ((searchSections phonemes).getD (i + 1) fallbackResult).startFrame)
    ∧ (∀ i, i < phonemes.length →
        ((searchSections phonemes).getD i fallbackResult).frameLength =
          (phonemes.getD i ⟨"", 0⟩).frameLength)
    ∧ (∀ i, i < phonemes.length →
        ((searchSections phonemes).getD i fallbackResult).endFrame =
          ((searchSections phonemes).getD i fallbackResult).startFrame +
            ((searchSections phonemes).getD i fallbackResult).frameLength) := by
  refine ⟨searchSectionsAux_length 0 phonemes, ?_, ?_, ?_, ?_⟩
  · exact searchSectionsAux_getD_zero_startFrame 0 phonemes
  · exact searchSectionsAux_chain 0 phonemes
  · exact searchSectionsAux_getD_frameLength 0 phonemes
  · exact searchSectionsAux_getD_endFrame 0 phonemes

/-- Witness for C6 at the concrete phoneme list `["a" (2 frames), "k" (0
frames), "i" (3 frames)]`: count preserved, first segment starts at 0, the
zero-length "k" segment is passed through and stays contiguous. -/
theorem C6_segmenter_witness :
    (searchSections [⟨"a", 2⟩, ⟨"k", 0⟩, ⟨"i", 3⟩]).length = 3
    ∧ (0 < 3 ∧ ((searchSections [⟨"a", 2⟩, ⟨"k", 0⟩, ⟨"i", 3⟩]).getD 0 fallbackResult).startFrame = 0)
    ∧ (1 + 1 < 3 ∧
        ((searchSections [⟨"a", 2⟩, ⟨"k", 0⟩, ⟨"i", 3⟩]).getD 1 fallbackResult).endFrame =
          ((searchSections [⟨"a", 2⟩, ⟨"k", 0⟩, ⟨"i", 3⟩]).getD 2 fallbackResult).startFrame)
    ∧ (1 < 3 ∧
        ((searchSections [⟨"a", 2⟩, ⟨"k", 0⟩, ⟨"i", 3⟩]).getD 1 fallbackResult).frameLength =
          (([⟨"a", 2⟩, ⟨"k", 0⟩, ⟨"i", 3⟩] : List FramePhoneme).getD 1 ⟨"", 0⟩).frameLength) := by
  refine ⟨(C6_segmenter [⟨"a", 2⟩, ⟨"k", 0⟩, ⟨"i", 3⟩]).1.trans (by simp),
    ⟨by norm_num, (C6_segmenter [⟨"a", 2⟩, ⟨"k", 0⟩, ⟨"i", 3⟩]).2.1 (by norm_num)⟩,
    ⟨by norm_num, (C6_segmenter [⟨"a", 2⟩, ⟨"k", 0⟩, ⟨"i", 3⟩]).2.2.1 1 (by norm_num)⟩,
    ⟨by norm_num, (C6_segmenter [⟨"a", 2⟩, ⟨"k", 0⟩, ⟨"i", 3⟩]).2.2.2.1 1 (by norm_num)⟩⟩

/-! ### Mouth-weight builder (claim C10) -/

/-- C10: `makeWeight` returns a map whose keys are exactly the five vowel
shapes; the target's entry equals the given weight when the target is one of
the five; otherwise (in particular for the silence tag `"__silent"`) every
entry is 0, so silence is realized as all-zero mouth weights and never appears
as a key of its own. -/
theorem C10_makeWeight (target : String) (w : ℚ) :
    (makeWeight target w).map Prod.fst = ["aa", "ih", "ou", "ee", "oh"]
    ∧ (target ∈ (["aa", "ih", "ou", "ee", "oh"] : List String) →
        (makeWeight target w).lookup target = some w)
    ∧ (target ∉ (["aa", "ih", "ou", "ee", "oh"] : List String) →
        ∀ kv ∈ makeWeight target w, kv.2 = 0) := by
  by_cases hm : target ∈ (["aa", "ih", "ou", "ee", "oh"] : List String)
  · fin_cases hm <;>
      refine ⟨by simp [makeWeight, setW], fun _ => ?_, fun hn => absurd (by simp) hn⟩ <;>
      simp [makeWeight, setW, List.lookup]
  · have h1 : target ≠ "aa" := by rintro rfl; simp at hm
    have h2 : target ≠ "ih" := by rintro rfl; simp at hm
    have h3 : target ≠ "ou" := by rintro rfl; simp at hm
    have h4 : target ≠ "ee" := by rintro rfl; simp at hm
    have h5 : target ≠ "oh" := by rintro rfl; simp at hm
    have hb : makeWeight target w = [("aa", 0), ("ih", 0), ("ou", 0), ("ee", 0), ("oh", 0)] := by
      simp [makeWeight, setW, Ne.symm h1, Ne.symm h2, Ne.symm h3, Ne.symm h4, Ne.symm h5]
    refine ⟨by simp [hb], fun h => absurd h hm, fun _ kv hkv => ?_⟩
    rw [hb] at hkv
    fin_cases hkv <;> rfl

/-- Witness for C10: the recognized target `"ih"` receives the given weight,
and the silence tag `"__silent"` (not one of the five keys) yields the all-zero
map. -/
theorem C10_makeWeight_witness :
    ("ih" ∈ (["aa", "ih", "ou", "ee", "oh"] : List String)
      ∧ (makeWeight "ih" (1/2)).lookup "ih" = some (1/2))
    ∧ ("__silent" ∉ (["aa", "ih", "ou", "ee", "oh"] : List String)
      ∧ ∀ kv ∈ makeWeight "__silent" 1, kv.2 = 0) :=
  ⟨⟨by simp, (C10_makeWeight "ih" (1/2)).2.1 (by simp)⟩,
    ⟨by simp, (C10_makeWeight "__silent" 1).2.2 (by simp)⟩⟩

/-! ### Playhead lookup: facts about `searchSection` (claim C5) -/

lemma sectionLoop_of_some (q : ℚ) (secs : List Section) (s : Section)
    (h : sectionLoop (JsQ.fin q) secs = some s) :
    s ∈ secs ∧ s.phonemeString ≠ "pau" ∧ s.startTick ≤ q ∧ q ≤ s.endTick := by
  induction secs with
  | nil => simp [sectionLoop] at h
  | cons a rest ih =>
    simp only [sectionLoop] at h
    by_cases h1 : (JsQ.lt (JsQ.fin q) (JsQ.fin a.startTick)
        || JsQ.lt (JsQ.fin a.endTick) (JsQ.fin q)) = true
    · rw [if_pos h1] at h
      obtain ⟨hm, hp, hc⟩ := ih h
      exact ⟨List.mem_cons_of_mem _ hm, hp, hc⟩
    · rw [if_neg h1] at h
      by_cases h2 : a.phonemeString = "pau"
      · rw [if_pos h2] at h
        obtain ⟨hm, hp, hc⟩ := ih h
        exact ⟨List.mem_cons_of_mem _ hm, hp, hc⟩
      · rw [if_neg h2] at h
        obtain rfl : a = s := by simpa using h
        simp only [JsQ.lt_fin, Bool.or_eq_true, decide_eq_true_eq, not_or, not_lt] at h1
        exact ⟨List.mem_cons_self _ _, h2, h1.1, h1.2⟩

lemma sectionLoop_isSome (q : ℚ) (secs : List Section)
    (h : ∃ s ∈ secs, s.phonemeString ≠ "pau" ∧ s.startTick ≤ q ∧ q ≤ s.endTick) :
    (sectionLoop (JsQ.fin q) secs).isSome := by
  induction secs with
  | nil => simp at h
  | cons a rest ih =>
    simp only [sectionLoop]
    by_cases h1 : (JsQ.lt (JsQ.fin q) (JsQ.fin a.startTick)
        || JsQ.lt (JsQ.fin a.endTick) (JsQ.fin q)) = true
    · rw [if_pos h1]
      rcases h with ⟨s, hs, hp, hc1, hc2⟩
      rcases List.mem_cons.mp hs with rfl | hs'
      · simp only [JsQ.lt_fin, Bool.or_eq_true, decide_eq_true_eq] at h1
        rcases h1 with h1 | h1
        · exact absurd hc1 (not_le.mpr h1)
        · exact absurd hc2 (not_le.mpr h1)
      · exact ih ⟨s, hs', hp, hc1, hc2⟩
    · rw [if_neg h1]
      by_cases h2 : a.phonemeString = "pau"
      · rw [if_pos h2]
        rcases h with ⟨s, hs, hp, hc1, hc2⟩
        rcases List.mem_cons.mp hs with rfl | hs'
        · exact absurd h2 hp
        · exact ih ⟨s, hs', hp, hc1, hc2⟩
      · rw [if_neg h2]; rfl

lemma sectionLoop_eq_none (q : ℚ) (secs : List Section)
    (h : ∀ s ∈ secs, s.startTick ≤ q → q ≤ s.endTick → s.phonemeString = "pau") :
    sectionLoop (JsQ.fin q) secs = none := by
  induction secs with
  | nil => rfl
  | cons a rest ih =>
    simp only [sectionLoop]
    by_cases h1 : (JsQ.lt (JsQ.fin q) (JsQ.fin a.startTick)
        || JsQ.lt (JsQ.fin a.endTick) (JsQ.fin q)) = true
    · rw [if_pos h1]
      exact ih fun s hs => h s (List.mem_cons_of_mem _ hs)
    · rw [if_neg h1]
      simp only [JsQ.lt_fin, Bool.or_eq_true, decide_eq_true_eq, not_or, not_lt] at h1
      rw [if_pos (h a (List.mem_cons_self _ _) h1.1 h1.2)]
      exact ih fun s hs => h s (List.mem_cons_of_mem _ hs)

lemma sectionLoop_some_ne_pau (q : JsQ) (secs : List Section) (s : Section)
    (h : sectionLoop q secs = some s) : s.phonemeString ≠ "pau" := by
  induction secs with
  | nil => simp [sectionLoop] at h
  | cons a rest ih =>
    simp only [sectionLoop] at h
    by_cases h1 : (JsQ.lt q (JsQ.fin a.startTick) || JsQ.lt (JsQ.fin a.endTick) q) = true
    · rw [if_pos h1] at h; exact ih h
    · rw [if_neg h1] at h
      by_cases h2 : a.phonemeString = "pau"
      · rw [if_pos h2] at h; exact ih h
      · rw [if_neg h2] at h
        obtain rfl : a = s := by simpa using h
        exact h2

lemma frameLoop_of_some (q : JsQ) (fm : List (String × OneFrame)) (s : Section)
    (h : frameLoop q fm = some s) : s.phonemeString ≠ "pau" := by
  induction fm with
  | nil => simp [frameLoop] at h
  | cons kv rest ih =>
    simp only [frameLoop] at h
    by_cases h1 : (JsQ.lt q (JsQ.fin kv.2.startTick)
        || JsQ.lt (JsQ.fin kv.2.endTick) q) = true
    · rw [if_pos h1] at h; exact ih h
    · rw [if_neg h1] at h
      rcases hsl : sectionLoop q kv.2.sections with _ | s'
      · rw [hsl] at h; exact ih h
      · rw [hsl] at h
        obtain rfl : s' = s := by simpa using h
        exact sectionLoop_some_ne_pau q _ _ hsl

lemma frameLoop_isSome (q : ℚ) (fm : List (String × OneFrame))
    (hwf : ∀ kv ∈ fm, ∀ s ∈ kv.2.sections,
      kv.2.startTick ≤ s.startTick ∧ s.endTick ≤ kv.2.endTick)
    (h : ∃ kv ∈ fm, ∃ s ∈ kv.2.sections,
      s.phonemeString ≠ "pau" ∧ s.startTick ≤ q ∧ q ≤ s.endTick) :
    (frameLoop (JsQ.fin q) fm).isSome := by
  induction fm with
  | nil => simp at h
  | cons kv rest ih =>
    simp only [frameLoop]
    by_cases h1 : (JsQ.lt (JsQ.fin q) (JsQ.fin kv.2.startTick)
        || JsQ.lt (JsQ.fin kv.2.endTick) (JsQ.fin q)) = true
    · rw [if_pos h1]
      rcases h with ⟨kv', hkv', s, hs, hp, hc1, hc2⟩
      rcases List.mem_cons.mp hkv' with rfl | hkv''
      · exfalso
        have hb := hwf kv' (List.mem_cons_self _ _) s hs
        simp only [JsQ.lt_fin, Bool.or_eq_true, decide_eq_true_eq] at h1
        rcases h1 with h1 | h1
        · exact absurd (hb.1.trans hc1) (not_le.mpr h1)
        · exact absurd (hc2.trans hb.2) (not_le.mpr h1)
      · exact ih (fun a ha => hwf a (List.mem_cons_of_mem _ ha)) ⟨kv', hkv'', s, hs, hp, hc1, hc2⟩
    · rw [if_neg h1]
      rcases hsl : sectionLoop (JsQ.fin q) kv.2.sections with _ | s'
      · rcases h with ⟨kv', hkv', s, hs, hp, hc1, hc2⟩
        rcases List.mem_cons.mp hkv' with rfl | hkv''
        · have := sectionLoop_isSome q kv'.2.sections ⟨s, hs, hp, hc1, hc2⟩
          rw [hsl] at this
          simp at this
        · exact ih (fun a ha => hwf a (List.mem_cons_of_mem _ ha)) ⟨kv', hkv'', s, hs, hp, hc1, hc2⟩
      · rfl

lemma frameLoop_eq_none (q : ℚ) (fm : List (String × OneFrame))
    (h : ∀ kv ∈ fm, ∀ s ∈ kv.2.sections,
      s.startTick ≤ q → q ≤ s.endTick → s.phonemeString = "pau") :
    frameLoop (JsQ.fin q) fm = none := by
  induction fm with
  | nil => rfl
  | cons kv rest ih =>
    simp only [frameLoop]
    by_cases h1 : (JsQ.lt (JsQ.fin q) (JsQ.fin kv.2.startTick)
        || JsQ.lt (JsQ.fin kv.2.endTick) (JsQ.fin q)) = true
    · rw [if_pos h1]
      exact ih fun a ha => h a (List.mem_cons_of_mem _ ha)
    · rw [if_neg h1]
      rw [sectionLoop_eq_none q kv.2.sections (h kv (List.mem_cons_self _ _))]
      exact ih fun a ha => h a (List.mem_cons_of_mem _ ha)

/-- C5: under the structural property of built timelines that every section's
tick range lies inside its timeline's tick range, the playhead lookup never
returns a `"pau"` segment while some non-silence cached segment covers the
queried tick; and when no cached non-silence segment covers the tick it
returns exactly the synthetic fallback (silence expression, weight 1, zero
frame length). -/
theorem C5_playhead_lookup (fm : List (String × OneFrame)) (q : ℚ)
    (hwf : ∀ kv ∈ fm, ∀ s ∈ kv.2.sections,
      kv.2.startTick ≤ s.startTick ∧ s.endTick ≤ kv.2.endTick) :
    ((∃ kv ∈ fm, ∃ s ∈ kv.2.sections,
        s.phonemeString ≠ "pau" ∧ s.startTick ≤ q ∧ q ≤ s.endTick) →
      (searchSection (JsQ.fin q) fm).phonemeString ≠ "pau")
    ∧ ((∀ kv ∈ fm, ∀ s ∈ kv.2.sections,
        s.startTick ≤ q → q ≤ s.endTick → s.phonemeString = "pau") →
      searchSection (JsQ.fin q) fm = fallbackResult) := by
  constructor
  · intro hex
    have hsome := frameLoop_isSome q fm hwf hex
    rcases hfl : frameLoop (JsQ.fin q) fm with _ | s
    · rw [hfl] at hsome; simp at hsome
    · have := frameLoop_of_some _ fm s hfl
      simp [searchSection, hfl, this]
  · intro hall
    simp [searchSection, frameLoop_eq_none q fm hall]

/-- Witness for C5: a single cached timeline (`frameA`, ticks [0, 10]) holding
a `"pau"` section and an `"a"` section that both cover tick 3; the lookup
indeed skips the silence segment. -/
theorem C5_playhead_lookup_witness :
    (∀ kv ∈ ([("p1", frameA)] : List (String × OneFrame)), ∀ s ∈ kv.2.sections,
        kv.2.startTick ≤ s.startTick ∧ s.endTick ≤ kv.2.endTick)
    ∧ (∃ kv ∈ ([("p1", frameA)] : List (String × OneFrame)), ∃ s ∈ kv.2.sections,
        s.phonemeString ≠ "pau" ∧ s.startTick ≤ 3 ∧ (3 : ℚ) ≤ s.endTick)
    ∧ (searchSection (JsQ.fin 3) [("p1", frameA)]).phonemeString ≠ "pau" := by
  have hwf : ∀ kv ∈ ([("p1", frameA)] : List (String × OneFrame)), ∀ s ∈ kv.2.sections,
      kv.2.startTick ≤ s.startTick ∧ s.endTick ≤ kv.2.endTick := by
    intro kv hkv s hs
    fin_cases hkv
    fin_cases hs <;> norm_num [frameA, pauSecA, aSecA]
  have hex : ∃ kv ∈ ([("p1", frameA)] : List (String × OneFrame)), ∃ s ∈ kv.2.sections,
      s.phonemeString ≠ "pau" ∧ s.startTick ≤ 3 ∧ (3 : ℚ) ≤ s.endTick := by
    refine ⟨("p1", frameA), List.mem_singleton.mpr rfl, aSecA, ?_, ?_⟩
    · simp [frameA]
    · refine ⟨by decide, by norm_num [aSecA], by norm_num [aSecA]⟩
  exact ⟨hwf, hex, (C5_playhead_lookup _ 3 hwf).1 hex⟩

/-! ### Phrase timeline cache: prune / maxEndTick / upsert (claims C7, C8, C3) -/

lemma maxEndTickFrom_ge (l : List (String × OneFrame)) (acc : ℚ) :
    acc ≤ maxEndTickFrom acc l := by
  induction l generalizing acc with
  | nil => exact le_refl acc
  | cons kv rest ih => exact le_trans (le_max_left _ _) (ih _)

lemma maxEndTickFrom_mem (l : List (String × OneFrame)) (acc : ℚ) :
    ∀ kv ∈ l, kv.2.endTick ≤ maxEndTickFrom acc l := by
  induction l generalizing acc with
  | nil => intro kv hkv; simp at hkv
  | cons a rest ih =>
    intro kv hkv
    rcases List.mem_cons.mp hkv with rfl | hkv'
    · exact le_trans (le_max_right _ _) (maxEndTickFrom_ge rest _)
    · exact ih _ kv hkv'

lemma maxEndTickFrom_cases (l : List (String × OneFrame)) (acc : ℚ) :
    maxEndTickFrom acc l = acc ∨ ∃ kv ∈ l, maxEndTickFrom acc l = kv.2.endTick := by
  induction l generalizing acc with
  | nil => exact Or.inl rfl
  | cons a rest ih =>
    rcases ih (max acc a.2.endTick) with hc | ⟨kv, hkv, hc⟩
    · rcases max_choice acc a.2.endTick with hm | hm
      · exact Or.inl (by simpa [maxEndTickFrom, hm] using hc)
      · exact Or.inr ⟨a, List.mem_cons_self _ _, by simpa [maxEndTickFrom, hm] using hc⟩
    · exact Or.inr ⟨kv, List.mem_cons_of_mem _ hkv, by simpa [maxEndTickFrom] using hc⟩

lemma renderPrune_isDelete (ids : List String) (fm : List (String × OneFrame)) (le : ℚ)
    (h : ∃ kv ∈ fm, kv.1 ∉ ids) :
    renderPrune ids fm le =
      (fm.filter (fun kv => ids.contains kv.1),
        maxEndTick (fm.filter (fun kv => ids.contains kv.1))) := by
  rcases h with ⟨kv, hkv, hni⟩
  have hany : (fm.any fun kv => !(ids.contains kv.1)) = true :=
    List.any_eq_true.mpr ⟨kv, hkv, by simpa using hni⟩
  unfold renderPrune
  rw [if_pos hany]

/-- C7: after a prune that removes at least one cached phrase, the
`lastEndTick` scalar equals the maximum `endTick` over all surviving
timelines: it bounds every survivor, is attained by a survivor (or is the
starting value 0), and is 0 when no timeline survives. -/
theorem C7_prune_max (ids : List String) (fm : List (String × OneFrame)) (le : ℚ)
    (h : ∃ kv ∈ fm, kv.1 ∉ ids) :
    (∀ kv ∈ (renderPrune ids fm le).1, kv.2.endTick ≤ (renderPrune ids fm le).2)
    ∧ ((renderPrune ids fm le).2 = 0 ∨
        ∃ kv ∈ (renderPrune ids fm le).1, (renderPrune ids fm le).2 = kv.2.endTick)
    ∧ ((renderPrune ids fm le).1 = [] → (renderPrune ids fm le).2 = 0) := by
  rw [renderPrune_isDelete ids fm le h]
  dsimp only
  refine ⟨maxEndTickFrom_mem _ 0, maxEndTickFrom_cases _ 0, fun he => ?_⟩
  rw [he]
  rfl

/-- Witness for C7 at a concrete cache: pruning with an empty phrase set
removes the only timeline and resets the scalar to 0 (from its old value 5). -/
theorem C7_prune_max_witness :
    (∃ kv ∈ ([("x", frameA)] : List (String × OneFrame)), kv.1 ∉ ([] : List String))
    ∧ (renderPrune [] [("x", frameA)] 5).1 = []
    ∧ (renderPrune [] [("x", frameA)] 5).2 = 0 :=
  ⟨⟨("x", frameA), by simp, by simp⟩, rfl,
    (C7_prune_max [] [("x", frameA)] 5 ⟨("x", frameA), by simp, by simp⟩).2.2 rfl⟩

/-- C8: for a phrase key that already has a cached timeline, processing any
later snapshot of that phrase (arbitrary start time, frame rate and phoneme
list) is a no-op: the cache, its entry for the key, and the `lastEndTick`
scalar are all unchanged. -/
theorem C8_upsert_idempotent (sigma : ℚ → ℚ) (noteOf : ℕ → ℚ) (phraseKey : String)
    (startTime frameRate : ℚ) (phonemes : List FramePhoneme)
    (fm : List (String × OneFrame)) (le : ℚ) (tl : OneFrame)
    (h : fm.lookup phraseKey = some tl) :
    upsert sigma noteOf phraseKey startTime frameRate phonemes fm le = (fm, le)
    ∧ (upsert sigma noteOf phraseKey startTime frameRate phonemes fm le).1.lookup phraseKey
        = some tl := by
  have hu : upsert sigma noteOf phraseKey startTime frameRate phonemes fm le = (fm, le) := by
    simp [upsert, h]
  exact ⟨hu, by rw [hu]; exact h⟩

/-- Witness for C8: a second snapshot of the cached phrase `"p1"` (with
different phonemes) leaves the cache and scalar untouched. -/
theorem C8_upsert_idempotent_witness :
    ([("p1", frameA)] : List (String × OneFrame)).lookup "p1" = some frameA
    ∧ upsert id (fun _ => 60) "p1" 7 2 [⟨"o", 3⟩] [("p1", frameA)] 5
        = ([("p1", frameA)], 5) :=
  ⟨rfl, (C8_upsert_idempotent id (fun _ => 60) "p1" 7 2 [⟨"o", 3⟩]
    [("p1", frameA)] 5 frameA rfl).1⟩

lemma insertLastEndTick_ge (secs : List Section) (le : ℚ) :
    le ≤ insertLastEndTick le secs := by
  induction secs generalizing le with
  | nil => exact le_refl le
  | cons a rest ih =>
    refine le_trans ?_ (ih _)
    by_cases hp : a.phonemeString ≠ "pau"
    · simp only [if_pos hp]; exact le_max_left _ _
    · simp only [if_neg hp]; exact le_refl le

lemma insertLastEndTick_mem (secs : List Section) (le : ℚ) :
    ∀ s ∈ secs, s.phonemeString ≠ "pau" → s.endTick ≤ insertLastEndTick le secs := by
  induction secs generalizing le with
  | nil => intro s hs; simp at hs
  | cons a rest ih =>
    intro s hs hp
    rcases List.mem_cons.mp hs with rfl | hs'
    · simp only [insertLastEndTick, if_pos hp]
      exact le_trans (le_max_right _ _) (insertLastEndTick_ge rest _)
    · exact ih _ s hs' hp

lemma insertLastEndTick_cases (secs : List Section) (le : ℚ) :
    insertLastEndTick le secs = le ∨
      ∃ s ∈ secs, s.phonemeString ≠ "pau" ∧ insertLastEndTick le secs = s.endTick := by
  induction secs generalizing le with
  | nil => exact Or.inl rfl
  | cons a rest ih =>
    by_cases hp : a.phonemeString ≠ "pau"
    · rcases ih (max le a.endTick) with hc | ⟨s, hs, hsp, hc⟩
      · rcases max_choice le a.endTick with hm | hm
        · exact Or.inl (by simpa [insertLastEndTick, if_pos hp, hm] using hc)
        · exact Or.inr ⟨a, List.mem_cons_self _ _, hp,
            by simpa [insertLastEndTick, if_pos hp, hm] using hc⟩
      · exact Or.inr ⟨s, List.mem_cons_of_mem _ hs, hsp,
          by simpa [insertLastEndTick, if_pos hp] using hc⟩
    · rcases ih le with hc | ⟨s, hs, hsp, hc⟩
      · exact Or.inl (by simpa [insertLastEndTick, if_neg hp] using hc)
      · exact Or.inr ⟨s, List.mem_cons_of_mem _ hs, hsp,
          by simpa [insertLastEndTick, if_neg hp] using hc⟩

/-- C3 (amended): on removal, the scalar is recomputed as the maximum endTick
over surviving timelines — it bounds every survivor, is attained by a
survivor (or is 0), and is 0 if none survive; on insertion the scalar is extended —
never decreased — to cover the endTick of every *non-silence* (`"pau"`)
section of the new timeline, and any growth is attained by one of those
sections.  (The original claim said insertion extends to the *timeline's*
endTick; `C3_lastEndTick_counterexample` shows a timeline with trailing
silence whose endTick exceeds the updated scalar.) -/
theorem C3_lastEndTick (ids : List String) (fm : List (String × OneFrame)) (le₁ : ℚ)
    (h : ∃ kv ∈ fm, kv.1 ∉ ids) (le₂ : ℚ) (secs : List Section) :
    ((∀ kv ∈ (renderPrune ids fm le₁).1, kv.2.endTick ≤ (renderPrune ids fm le₁).2)
      ∧ ((renderPrune ids fm le₁).2 = 0 ∨
          ∃ kv ∈ (renderPrune ids fm le₁).1, (renderPrune ids fm le₁).2 = kv.2.endTick)
      ∧ ((renderPrune ids fm le₁).1 = [] → (renderPrune ids fm le₁).2 = 0))
    ∧ (le₂ ≤ insertLastEndTick le₂ secs
      ∧ (∀ s ∈ secs, s.phonemeString ≠ "pau" → s.endTick ≤ insertLastEndTick le₂ secs)
      ∧ (insertLastEndTick le₂ secs = le₂ ∨
          ∃ s ∈ secs, s.phonemeString ≠ "pau" ∧ insertLastEndTick le₂ secs = s.endTick)) := by
  rw [renderPrune_isDelete ids fm le₁ h]
  dsimp only
  refine ⟨⟨maxEndTickFrom_mem _ 0, maxEndTickFrom_cases _ 0, fun he => ?_⟩,
    insertLastEndTick_ge secs le₂,
    insertLastEndTick_mem secs le₂, insertLastEndTick_cases secs le₂⟩
  rw [he]
  rfl

/-- Counterexample for C3 as stated: building the timeline for phonemes
`[("a", 1 frame), ("pau", 1 frame)]` (identity tick conversion, start time 0,
frame rate 1) gives a timeline with `endTick = 2`, which exceeds the current
scalar 0, yet the insertion updates the scalar only to 1 (the last non-silence
section's endTick), not to 2. -/
theorem C3_lastEndTick_counterexample :
    ((buildOneFrame id (fun _ => 60) 0 1 [⟨"a", 1⟩, ⟨"pau", 1⟩]).map
      (fun onef => (onef.endTick, insertLastEndTick 0 onef.sections))) = some (2, 1)
    ∧ (0 : ℚ) < 2 ∧ (1 : ℚ) ≠ 2 := by
  refine ⟨?_, by norm_num, by norm_num⟩
  norm_num +decide [buildOneFrame, searchSections, searchSectionsAux, finalizeSections,
    resolveExpression, vowelMap, consonantWeight, insertLastEndTick]

/-- Witness for C3: concrete removal (sole timeline pruned, scalar reset to 0)
and concrete insertion data. -/
theorem C3_lastEndTick_witness :
    (∃ kv ∈ ([("x", frameA)] : List (String × OneFrame)), kv.1 ∉ ([] : List String))
    ∧ (renderPrune [] [("x", frameA)] 5).2 = 0
    ∧ (5 : ℚ) ≤ insertLastEndTick 5 [aSecA] := by
  have h : ∃ kv ∈ ([("x", frameA)] : List (String × OneFrame)), kv.1 ∉ ([] : List String) :=
    ⟨("x", frameA), by simp, by simp⟩
  exact ⟨h, (C3_lastEndTick [] [("x", frameA)] 5 h 5 [aSecA]).1.2.2 rfl,
    (C3_lastEndTick [] [("x", frameA)] 5 h 5 [aSecA]).2.1⟩

/-! ### Expression mapper (claim C4) -/

lemma vowelMap_eq_none (v : String) (h : v ∉ (["a", "i", "u", "e", "o"] : List String)) :
    vowelMap v = none := by
  have h1 : v ≠ "a" := by rintro rfl; simp at h
  have h2 : v ≠ "i" := by rintro rfl; simp at h
  have h3 : v ≠ "u" := by rintro rfl; simp at h
  have h4 : v ≠ "e" := by rintro rfl; simp at h
  have h5 : v ≠ "o" := by rintro rfl; simp at h
  simp [vowelMap, h1, h2, h3, h4, h5]

/-- C4: the expression mapper resolves a segment exactly as claimed: the
closure class {m, b, p, my, by, py, N, v, pau} maps to the silence expression
with weight 1; "w" maps to "ou" with weight 0.7; the five vowels map to their
shapes with weight 1; any other symbol gets weight 0.7 and the next segment's
vowel shape when the next phoneme is a recognized vowel, else "ou" (also when
there is no next segment); and the pipeline on ["a","k","i","pau"] yields
expressions [aa, ih, ih, silence] with weights [1, 0.7, 1, 1]. -/
theorem C4_expression_mapper (p : String) (next : Option String) :
    (p = "m" ∨ p = "b" ∨ p = "p" ∨ p = "my" ∨ p = "by" ∨ p = "py" ∨
        p = "N" ∨ p = "v" ∨ p = "pau" →
      resolveExpression p next = (EXP_CLOSE, 1))
    ∧ (p = "w" → resolveExpression p next = ("ou", 0.7))
    ∧ (p = "a" → resolveExpression p next = ("aa", 1))
    ∧ (p = "i" → resolveExpression p next = ("ih", 1))
    ∧ (p = "u" → resolveExpression p next = ("ou", 1))
    ∧ (p = "e" → resolveExpression p next = ("ee", 1))
    ∧ (p = "o" → resolveExpression p next = ("oh", 1))
    ∧ (¬(p = "m" ∨ p = "b" ∨ p = "p" ∨ p = "my" ∨ p = "by" ∨ p = "py" ∨
          p = "N" ∨ p = "v" ∨ p = "pau" ∨ p = "w" ∨ p = "a" ∨ p = "i" ∨
          p = "u" ∨ p = "e" ∨ p = "o") →
        ((next = some "a" → resolveExpression p next = ("aa", 0.7))
          ∧ (next = some "i" → resolveExpression p next = ("ih", 0.7))
          ∧ (next = some "u" → resolveExpression p next = ("ou", 0.7))
          ∧ (next = some "e" → resolveExpression p next = ("ee", 0.7))
          ∧ (next = some "o" → resolveExpression p next = ("oh", 0.7))
          ∧ ((∀ v, next = some v → v ∉ (["a", "i", "u", "e", "o"] : List String)) →
              resolveExpression p next = ("ou", 0.7))))
    ∧ (((buildOneFrame id (fun _ => 60) 0 1 [⟨"a", 1⟩, ⟨"k", 1⟩, ⟨"i", 1⟩, ⟨"pau", 1⟩]).map
        (fun onef => onef.sections.map (fun s => (s.expression, s.weight)))) =
        some [("aa", 1), ("ih", 0.7), ("ih", 1), ("__silent", 1)]) := by
  refine ⟨?_, ?_, ?_, ?_, ?_, ?_, ?_, ?_, ?_⟩
  · intro h
    unfold resolveExpression
    rw [if_pos h]
  · rintro rfl; rfl
  · rintro rfl; rfl
  · rintro rfl; rfl
  · rintro rfl; rfl
  · rintro rfl; rfl
  · rintro rfl; rfl
  · intro h
    push_neg at h
    obtain ⟨hm, hb, hp2, hmy, hby, hpy, hN, hv, hpau, hw, ha, hi, hu, he2, ho⟩ := h
    have h9 : ¬(p = "m" ∨ p = "b" ∨ p = "p" ∨ p = "my" ∨ p = "by" ∨ p = "py" ∨
        p = "N" ∨ p = "v" ∨ p = "pau") := by
      simp [hm, hb, hp2, hmy, hby, hpy, hN, hv, hpau]
    have hd : resolveExpression p next =
        (match next.bind vowelMap with
          | some v => (v, consonantWeight)
          | none => ("ou", consonantWeight)) := by
      unfold resolveExpression
      rw [if_neg h9, if_neg hw, if_neg ha, if_neg hi, if_neg hu, if_neg he2, if_neg ho]
    refine ⟨?_, ?_, ?_, ?_, ?_, ?_⟩
    · rintro rfl; rw [hd]; rfl
    · rintro rfl; rw [hd]; rfl
    · rintro rfl; rw [hd]; rfl
    · rintro rfl; rw [hd]; rfl
    · rintro rfl; rw [hd]; rfl
    · intro hnv
      rw [hd]
      cases next with
      | none => rfl
      | some v =>
        have hvn := vowelMap_eq_none v (hnv v rfl)
        simp [hvn, consonantWeight]
  · norm_num +decide [buildOneFrame, searchSections, searchSectionsAux, finalizeSections,
      resolveExpression, vowelMap, consonantWeight]

/-- Witness for C4: the unlisted consonant "k" followed by the vowel "i"
borrows "ih" at weight 0.7, the closure-class "b" yields silence at weight 1,
and a final "z" with no following segment defaults to "ou" at 0.7. -/
theorem C4_expression_mapper_witness :
    (¬("k" = "m" ∨ "k" = "b" ∨ "k" = "p" ∨ "k" = "my" ∨ "k" = "by" ∨ "k" = "py" ∨
        "k" = "N" ∨ "k" = "v" ∨ "k" = "pau" ∨ "k" = "w" ∨ "k" = "a" ∨ "k" = "i" ∨
        "k" = "u" ∨ "k" = "e" ∨ "k" = "o")
      ∧ resolveExpression "k" (some "i") = ("ih", 0.7))
    ∧ resolveExpression "b" (some "a") = (EXP_CLOSE, 1)
    ∧ resolveExpression "z" none = ("ou", 0.7) := by
  refine ⟨⟨by decide, ((C4_expression_mapper "k" (some "i")).2.2.2.2.2.2.2.1
      (by decide)).2.1 rfl⟩, ?_, ?_⟩
  · exact (C4_expression_mapper "b" (some "a")).1 (by decide)
  · exact ((C4_expression_mapper "z" none).2.2.2.2.2.2.2.1 (by decide)).2.2.2.2.2
      (by rintro v hv; cases hv)

/-! ### Expression-weight range (claims C2, C1) -/

lemma sectionLoop_mem (q : JsQ) (secs : List Section) (s : Section)
    (h : sectionLoop q secs = some s) : s ∈ secs := by
  induction secs with
  | nil => simp [sectionLoop] at h
  | cons a rest ih =>
    simp only [sectionLoop] at h
    by_cases h1 : (JsQ.lt q (JsQ.fin a.startTick) || JsQ.lt (JsQ.fin a.endTick) q) = true
    · rw [if_pos h1] at h; exact List.mem_cons_of_mem _ (ih h)
    · rw [if_neg h1] at h
      by_cases h2 : a.phonemeString = "pau"
      · rw [if_pos h2] at h; exact List.mem_cons_of_mem _ (ih h)
      · rw [if_neg h2] at h
        obtain rfl : a = s := by simpa using h
        exact List.mem_cons_self _ _

lemma frameLoop_mem (q : JsQ) (fm : List (String × OneFrame)) (s : Section)
    (h : frameLoop q fm = some s) : ∃ kv ∈ fm, s ∈ kv.2.sections := by
  induction fm with
  | nil => simp [frameLoop] at h
  | cons kv rest ih =>
    simp only [frameLoop] at h
    by_cases h1 : (JsQ.lt q (JsQ.fin kv.2.startTick)
        || JsQ.lt (JsQ.fin kv.2.endTick) q) = true
    · rw [if_pos h1] at h
      obtain ⟨kv', hkv', hs⟩ := ih h
      exact ⟨kv', List.mem_cons_of_mem _ hkv', hs⟩
    · rw [if_neg h1] at h
      rcases hsl : sectionLoop q kv.2.sections with _ | s'
      · rw [hsl] at h
        obtain ⟨kv', hkv', hs⟩ := ih h
        exact ⟨kv', List.mem_cons_of_mem _ hkv', hs⟩
      · rw [hsl] at h
        obtain rfl : s' = s := by simpa using h
        exact ⟨kv, List.mem_cons_self _ _, sectionLoop_mem q _ _ hsl⟩

lemma searchSection_cases (q : JsQ) (fm : List (String × OneFrame)) :
    searchSection q fm = fallbackResult ∨
      ∃ kv ∈ fm, searchSection q fm ∈ kv.2.sections := by
  rcases h : frameLoop q fm with _ | s
  · exact Or.inl (by simp [searchSection, h])
  · refine Or.inr ?_
    have hs : searchSection q fm = s := by simp [searchSection, h]
    rw [hs]
    exact frameLoop_mem q fm s h

lemma setWJs_mem (m : List (String × JsQ)) (k : String) (v : JsQ) :
    ∀ kv ∈ setWJs m k v, kv ∈ m ∨ kv = (k, v) := by
  intro kv hkv
  unfold setWJs at hkv
  by_cases hany : (m.any fun kv => kv.1 = k) = true
  · rw [if_pos hany] at hkv
    obtain ⟨kv0, hkv0, heq⟩ := List.mem_map.mp hkv
    by_cases hk : kv0.1 = k
    · rw [if_pos hk] at heq
      exact Or.inr (by rw [← heq, hk])
    · rw [if_neg hk] at heq
      exact Or.inl (heq ▸ hkv0)
  · rw [if_neg hany] at hkv
    rcases List.mem_append.mp hkv with hkv' | hkv'
    · exact Or.inl hkv'
    · exact Or.inr (List.mem_singleton.mp hkv')

lemma makeWeight_mem (t : String) (w : ℚ) :
    ∀ kv ∈ makeWeight t w, kv.2 = w ∨ kv.2 = 0 := by
  intro kv hkv
  by_cases ht : t ∈ (["aa", "ih", "ou", "ee", "oh"] : List String)
  · fin_cases ht <;>
    · simp only [makeWeight, setW] at hkv
      norm_num at hkv
      rcases hkv with h | h | h | h | h <;> (rw [h]; simp)
  · have h1 : t ≠ "aa" := by rintro rfl; simp at ht
    have h2 : t ≠ "ih" := by rintro rfl; simp at ht
    have h3 : t ≠ "ou" := by rintro rfl; simp at ht
    have h4 : t ≠ "ee" := by rintro rfl; simp at ht
    have h5 : t ≠ "oh" := by rintro rfl; simp at ht
    have hb : makeWeight t w = [("aa", 0), ("ih", 0), ("ou", 0), ("ee", 0), ("oh", 0)] := by
      simp [makeWeight, setW, Ne.symm h1, Ne.symm h2, Ne.symm h3, Ne.symm h4, Ne.symm h5]
    rw [hb] at hkv
    fin_cases hkv <;> exact Or.inr rfl

lemma neutral_mem {c : Prop} [Decidable c] {m : List (String × JsQ)} (kv : String × JsQ)
    (h : kv ∈ (if c then setWJs m "neutral" (JsQ.fin 1) else m)) :
    kv ∈ m ∨ kv = ("neutral", JsQ.fin 1) := by
  split at h
  · exact setWJs_mem m _ _ kv h
  · exact Or.inl h

lemma ite_one_zero_le_one (c : Prop) [Decidable c] : (if c then (1 : ℚ) else 0) ≤ 1 := by
  split <;> norm_num

lemma ite_one_zero_nonneg (c : Prop) [Decidable c] : (0 : ℚ) ≤ (if c then (1 : ℚ) else 0) := by
  split <;> norm_num

/-- C2 (amended): on a finite playhead tick, every value in the produced
expression-weight map is a finite rational at most 1, and every value other
than the finale-gesture weight (key `"Wink_L"`) lies in [0, 1].  The finale
weight itself is clamped above by `Math.min(1, ·)` but *not below* 0 (see
`C2_weights_counterexample`).  The hypothesis that cached section weights lie
in [0, 1] holds for all built timelines, whose weights are only ever 1 or
0.7. -/
theorem C2_weights_range (fm : List (String × OneFrame)) (q tpqn le : ℚ) (isEnd : Bool)
    (hw : ∀ kv ∈ fm, ∀ s ∈ kv.2.sections, 0 ≤ s.weight ∧ s.weight ≤ 1) :
    ∀ kv ∈ computeWeights fm (JsQ.fin q) tpqn le isEnd,
      ∃ x : ℚ, kv.2 = JsQ.fin x ∧ x ≤ 1 ∧ (kv.1 ≠ "Wink_L" → 0 ≤ x) := by
  have hsec : 0 ≤ (searchSection (JsQ.fin q) fm).weight
      ∧ (searchSection (JsQ.fin q) fm).weight ≤ 1 := by
    rcases searchSection_cases (JsQ.fin q) fm with h | ⟨kv, hkv, hs⟩
    · rw [h]; norm_num
    · exact hw kv hkv _ hs
  intro kv hkv
  unfold computeWeights at hkv
  dsimp only at hkv
  rcases neutral_mem kv hkv with hkv1 | heq
  swap
  · exact ⟨1, by rw [heq], by norm_num, fun _ => by norm_num⟩
  rcases setWJs_mem _ _ _ kv hkv1 with hkv2 | heq
  swap
  · refine ⟨Min.min 1 ((q - le - tpqn * 3) / 24), ?_, min_le_left _ _, fun hne => ?_⟩
    · rw [heq]
      simp only [JsQ.sub_fin, JsQ.div_fin, JsQ.min_fin,
        if_neg (by norm_num : ¬(24 : ℚ) = 0)]
    · exact absurd (by rw [heq]; rfl : kv.1 = "Wink_L") (by simpa using hne)
  rcases setWJs_mem _ _ _ kv hkv2 with hkv3 | heq
  swap
  · rw [heq]
    exact ⟨_, rfl, ite_one_zero_le_one _, fun _ => ite_one_zero_nonneg _⟩
  obtain ⟨kv0, hkv0, rfl⟩ := List.mem_map.mp hkv3
  rcases makeWeight_mem _ _ kv0 hkv0 with hv | hv
  · exact ⟨kv0.2, rfl, by rw [hv]; exact hsec.2, fun _ => by rw [hv]; exact hsec.1⟩
  · exact ⟨kv0.2, rfl, by simp [hv], fun _ => by simp [hv]⟩

/-- Counterexample for C2 as stated: with an empty cache, playhead tick 0,
`lastTpqn = 480` and `lastEndTick = 0`, the finale expression weight
(`"Wink_L"`, `endAppend = Math.min(1, (0 - 0 - 1440)/24)`) is -60, far outside
[0, 1]. -/
theorem C2_weights_counterexample :
    (computeWeights [] (JsQ.fin 0) 480 0 false).lookup "Wink_L" = some (JsQ.fin (-60))
    ∧ ((-60 : ℚ) < 0) := by
  refine ⟨?_, by norm_num⟩
  norm_num +decide [computeWeights, makeWeight, setW, setWJs, motionLongRate, List.lookup]

/-- Witness for C2 at the same concrete frame state: the range bound applies
(the weight-range hypothesis on the empty cache holds vacuously). -/
theorem C2_weights_range_witness :
    (∀ kv ∈ ([] : List (String × OneFrame)), ∀ s ∈ kv.2.sections,
        0 ≤ s.weight ∧ s.weight ≤ 1)
    ∧ ∀ kv ∈ computeWeights [] (JsQ.fin 0) 480 0 false,
        ∃ x : ℚ, kv.2 = JsQ.fin x ∧ x ≤ 1 ∧ (kv.1 ≠ "Wink_L" → 0 ≤ x) :=
  ⟨by simp, C2_weights_range [] 0 480 0 false (by simp)⟩

/-- C1 (code bug): with `playheadTicks = NaN`, the `Number.isFinite` guard
zeroes the sway phase and the NaN-false comparisons keep the decay branch
inert, but `endAppend = Math.min(1, (NaN - lastEndTick - 3·lastTpqn)/24)`
evaluates to NaN and is stored as the finale expression weight `"Wink_L"`:
the produced expression-weight map contains a non-finite value, contradicting
the claim (and the spec's stated intent). -/
theorem C1_nan_finale_weight :
    (computeWeights [] JsQ.nan 480 0 false).lookup "Wink_L" = some JsQ.nan := by
  norm_num +decide [computeWeights, makeWeight, setW, setWJs, motionLongRate, List.lookup]

/-! ### Ending decay (claim C9) -/

lemma decayFactor_eq (tpqn p : ℝ) (htp : 0 < tpqn) (_hp : 0 ≤ p) (hple : p ≤ tpqn) :
    decayFactor tpqn p = (1 + Real.cos (p / tpqn * Real.pi)) / 2 := by
  unfold decayFactor cosEase
  rw [min_eq_right (by rw [div_le_one htp]; exact hple)]
  ring

lemma decayFactor_nonneg (tpqn p : ℝ) (htp : 0 < tpqn) (hp : 0 ≤ p) (hple : p ≤ tpqn) :
    0 ≤ decayFactor tpqn p := by
  rw [decayFactor_eq tpqn p htp hp hple]
  have := Real.neg_one_le_cos (p / tpqn * Real.pi)
  linarith

/-- C9: with a fixed captured decay-start rotation `z0`, the decayed rotation
magnitude `|z0 · decayFactor|` is non-increasing as `pastTick` grows from 0 to
`lastTpqn`; it is exactly 0 at `pastTick = lastTpqn`; and the motion step at
`pastTick = lastTpqn` (playhead at `lastEndTick + lastTpqn`) enters the ENDED
state, discards the captured rotation and outputs rotation (0, 0). -/
theorem C9_ending_decay (z0 x0 tpqn p1 p2 le : ℝ)
    (htp : 0 < tpqn) (h0 : 0 ≤ p1) (h12 : p1 ≤ p2) (h2 : p2 ≤ tpqn) :
    |z0 * decayFactor tpqn p2| ≤ |z0 * decayFactor tpqn p1|
    ∧ z0 * decayFactor tpqn tpqn = 0
    ∧ motionStep (le + tpqn) tpqn le ⟨false, some (x0, 0, z0)⟩ = ((0, 0), ⟨true, none⟩) := by
  have h1le : 0 ≤ p2 := le_trans h0 h12
  have h1tp : p1 ≤ tpqn := le_trans h12 h2
  have hmono : decayFactor tpqn p2 ≤ decayFactor tpqn p1 := by
    rw [decayFactor_eq tpqn p1 htp h0 h1tp, decayFactor_eq tpqn p2 htp h1le h2]
    have hcos : Real.cos (p2 / tpqn * Real.pi) ≤ Real.cos (p1 / tpqn * Real.pi) := by
      refine Real.cos_le_cos_of_nonneg_of_le_pi ?_ ?_ ?_
      · exact mul_nonneg (div_nonneg h0 htp.le) Real.pi_pos.le
      · calc p2 / tpqn * Real.pi ≤ 1 * Real.pi := by
              refine mul_le_mul_of_nonneg_right ?_ Real.pi_pos.le
              rw [div_le_one htp]; exact h2
          _ = Real.pi := one_mul _
      · refine mul_le_mul_of_nonneg_right ?_ Real.pi_pos.le
        gcongr
    linarith
  have hzero : decayFactor tpqn tpqn = 0 := by
    rw [decayFactor_eq tpqn tpqn htp htp.le le_rfl, div_self (ne_of_gt htp), one_mul,
      Real.cos_pi]
    ring
  refine ⟨?_, by rw [hzero, mul_zero], ?_⟩
  · rw [abs_mul, abs_mul]
    refine mul_le_mul_of_nonneg_left ?_ (abs_nonneg z0)
    rw [abs_of_nonneg (decayFactor_nonneg tpqn p2 htp h1le h2),
      abs_of_nonneg (decayFactor_nonneg tpqn p1 htp h0 h1tp)]
    exact hmono
  · have htt : le + tpqn - le = tpqn := by ring
    have hdiv : tpqn / tpqn = 1 := div_self (ne_of_gt htp)
    unfold motionStep
    dsimp only
    rw [htt, if_pos htp, hdiv, min_self, if_pos rfl]
    simp

/-! ### Built timelines satisfy the hypotheses used above

The playhead-lookup theorem assumes each cached section's tick range lies
inside its timeline's tick range, and the weight-range theorem assumes cached
section weights lie in [0, 1].  Both hold for every timeline the builder
produces (with a monotone tick converter and positive frame rate), closing the
loop on "every cache state". -/

lemma resolveExpression_weight (p : String) (next : Option String) :
    (resolveExpression p next).2 = 1 ∨ (resolveExpression p next).2 = consonantWeight := by
  unfold resolveExpression
  split_ifs
  · exact Or.inl rfl
  · exact Or.inr rfl
  · exact Or.inl rfl
  · exact Or.inl rfl
  · exact Or.inl rfl
  · exact Or.inl rfl
  · exact Or.inl rfl
  · rcases h : next.bind vowelMap with _ | v <;> exact Or.inr rfl

lemma finalizeSections_weight (sigma : ℚ → ℚ) (noteOf : ℕ → ℚ) (st fr : ℚ)
    (secs : List Section) :
    ∀ s ∈ finalizeSections sigma noteOf st fr secs,
      s.weight = 1 ∨ s.weight = consonantWeight := by
  induction secs with
  | nil => intro s hs; simp [finalizeSections] at hs
  | cons a rest ih =>
    intro s hs
    simp only [finalizeSections] at hs
    rcases List.mem_cons.mp hs with rfl | hs'
    · exact resolveExpression_weight _ _
    · exact ih s hs'

lemma finalizeSections_ticks (sigma : ℚ → ℚ) (noteOf : ℕ → ℚ) (st fr : ℚ)
    (secs : List Section) :
    ∀ s ∈ finalizeSections sigma noteOf st fr secs,
      ∃ s0 ∈ secs, s.startTick = sigma (st + (s0.startFrame : ℚ) / fr)
        ∧ s.endTick = sigma (st + (s0.endFrame : ℚ) / fr) := by
  induction secs with
  | nil => intro s hs; simp [finalizeSections] at hs
  | cons a rest ih =>
    intro s hs
    simp only [finalizeSections] at hs
    rcases List.mem_cons.mp hs with rfl | hs'
    · exact ⟨a, List.mem_cons_self _ _, rfl, rfl⟩
    · obtain ⟨s0, hs0, h1, h2⟩ := ih s hs'
      exact ⟨s0, List.mem_cons_of_mem _ hs0, h1, h2⟩

lemma searchSectionsAux_mem_bounds (c : ℕ) (ps : List FramePhoneme) :
    ∀ sec ∈ searchSectionsAux c ps,
      c ≤ sec.startFrame ∧ sec.startFrame ≤ sec.endFrame
        ∧ sec.endFrame ≤ c + (ps.map (fun p => p.frameLength)).sum := by
  induction ps generalizing c with
  | nil => intro sec hs; simp [searchSectionsAux] at hs
  | cons p rest ih =>
    intro sec hs
    simp only [searchSectionsAux] at hs
    rcases List.mem_cons.mp hs with rfl | hs'
    · refine ⟨le_refl c, Nat.le_add_right _ _, ?_⟩
      simp only [List.map_cons, List.sum_cons]
      omega
    · obtain ⟨h1, h2, h3⟩ := ih (c + p.frameLength) sec hs'
      refine ⟨le_trans (Nat.le_add_right _ _) h1, h2, ?_⟩
      simp only [List.map_cons, List.sum_cons]
      omega

lemma searchSectionsAux_getLast (c : ℕ) (ps : List FramePhoneme) (hne : ps ≠ []) :
    ∃ sec, (searchSectionsAux c ps).getLast? = some sec
      ∧ sec.endFrame = c + (ps.map (fun p => p.frameLength)).sum := by
  induction ps generalizing c with
  | nil => exact absurd rfl hne
  | cons p rest ih =>
    cases rest with
    | nil =>
      refine ⟨_, rfl, ?_⟩
      simp [searchSectionsAux]
    | cons p2 rest2 =>
      obtain ⟨sec, hsec, hend⟩ := ih (c + p.frameLength) (List.cons_ne_nil _ _)
      refine ⟨sec, ?_, ?_⟩
      · simp only [searchSectionsAux] at hsec ⊢
        rw [List.getLast?_cons_cons]
        exact hsec
      · rw [hend]
        simp only [List.map_cons, List.sum_cons]
        omega

lemma searchSections_head (ps : List FramePhoneme) (sec : Section)
    (h : (searchSections ps).head? = some sec) : sec.startFrame = 0 := by
  cases ps with
  | nil => simp [searchSections, searchSectionsAux] at h
  | cons p rest =>
    simp only [searchSections, searchSectionsAux, List.head?_cons] at h
    obtain rfl : _ = sec := Option.some_inj.mp h
    rfl

lemma buildOneFrame_wf (sigma : ℚ → ℚ) (noteOf : ℕ → ℚ) (st fr : ℚ)
    (ph : List FramePhoneme) (onef : OneFrame)
    (hmono : Monotone sigma) (hfr : 0 < fr)
    (h : buildOneFrame sigma noteOf st fr ph = some onef) :
    ∀ s ∈ onef.sections, onef.startTick ≤ s.startTick ∧ s.endTick ≤ onef.endTick := by
  unfold buildOneFrame at h
  rcases hh : (searchSections ph).head? with _ | s0 <;> rw [hh] at h
  · simp at h
  rcases hl : (searchSections ph).getLast? with _ | lastRaw <;> rw [hl] at h
  · simp at h
  dsimp only at h
  obtain rfl := Option.some_inj.mp h
  intro s hs
  dsimp only at hs ⊢
  obtain ⟨s1, hs1, hst, hen⟩ := finalizeSections_ticks sigma noteOf st fr _ s hs
  have hb := searchSectionsAux_mem_bounds 0 ph s1 hs1
  have hs0 : s0.startFrame = 0 := searchSections_head ph s0 hh
  have hne : ph ≠ [] := by
    rintro rfl
    simp [searchSections, searchSectionsAux] at hh
  obtain ⟨sec, hsec, hend⟩ := searchSectionsAux_getLast 0 ph hne
  have hlast : lastRaw = sec := by
    rw [show (searchSections ph).getLast? = (searchSectionsAux 0 ph).getLast? from rfl,
      hsec] at hl
    exact Option.some_inj.mp hl.symm
  constructor
  · rw [hst]
    refine hmono ?_
    have h4 : (0 : ℚ) ≤ (s1.startFrame : ℚ) / fr := div_nonneg (by positivity) hfr.le
    linarith
  · rw [hen]
    refine hmono ?_
    have h3 := hb.2.2
    have h4 : (s1.endFrame : ℚ) ≤ ((0 + (ph.map (fun p => p.frameLength)).sum : ℕ) : ℚ) :=
      Nat.cast_le.mpr h3
    have hle : (s1.endFrame : ℚ) ≤ ((lastRaw.endFrame : ℚ) - (s0.startFrame : ℚ)) := by
      rw [hlast, hend, hs0]
      push_cast at h4 ⊢
      linarith
    have h5 : (s1.endFrame : ℚ) / fr ≤ ((lastRaw.endFrame : ℚ) - (s0.startFrame : ℚ)) / fr := by
      gcongr
    linarith

lemma buildOneFrame_weights (sigma : ℚ → ℚ) (noteOf : ℕ → ℚ) (st fr : ℚ)
    (ph : List FramePhoneme) (onef : OneFrame)
    (h : buildOneFrame sigma noteOf st fr ph = some onef) :
    ∀ s ∈ onef.sections, 0 ≤ s.weight ∧ s.weight ≤ 1 := by
  unfold buildOneFrame at h
  rcases hh : (searchSections ph).head? with _ | s0 <;> rw [hh] at h
  · simp at h
  rcases hl : (searchSections ph).getLast? with _ | lastRaw <;> rw [hl] at h
  · simp at h
  dsimp only at h
  obtain rfl := Option.some_inj.mp h
  intro s hs
  dsimp only at hs
  rcases finalizeSections_weight sigma noteOf st fr _ s hs with hw | hw <;>
    rw [hw] <;> norm_num [consonantWeight]

/-- Witness for C9 at `z0 = 1`, `tpqn = 1`, `pastTick` from 0 to 1,
`lastEndTick = 0`, captured rotation `(2, 0, 1)`. -/
theorem C9_ending_decay_witness :
    ((0 : ℝ) < 1 ∧ (0 : ℝ) ≤ 0 ∧ (0 : ℝ) ≤ 1 ∧ (1 : ℝ) ≤ 1)
    ∧ (|1 * decayFactor 1 1| ≤ |1 * decayFactor 1 0|
      ∧ 1 * decayFactor 1 1 = 0
      ∧ motionStep (0 + 1) 1 0 ⟨false, some (2, 0, 1)⟩ = ((0, 0), ⟨true, none⟩)) :=
  ⟨⟨by norm_num, by norm_num, by norm_num, by norm_num⟩,
    C9_ending_decay 1 2 1 0 1 0 (by norm_num) (by norm_num) (by norm_num) (by norm_num)⟩

end CharacterModel
